import Mathlib

set_option maxRecDepth 10000

/-!
Verification of the LinkedIn posting manager (SEOLinkedInPoster.py,
linkedin_api.py) via a shallow embedding.  Strings are modelled as
`List Char`; Python whitespace handling, `str.split`, `str.strip`,
`str.replace` and the two regex substitutions used by the code are
embedded as executable Lean functions.  External effects (the language
model, the network, the clock, `random`) are parameters (oracles) of the
embedded functions; machine floats are idealised as exact rationals (all
claims only exercise arithmetically exact cases).
-/

/-- The whitespace characters recognised by Python `str.split()` /
`str.strip()` (ASCII fragment, consistent on both sides of every claim). -/
def isPySpace (c : Char) : Bool :=
  c == ' ' || c == '\t' || c == '\n' || c == '\r' ||
  c == Char.ofNat 11 || c == Char.ofNat 12

/-- Auxiliary scanner for Python `str.split()` with no separator:
`acc` holds the current (reversed) in-progress word. -/
def pyWordsAux : List Char → List Char → List (List Char)
  | [], acc => if acc.isEmpty then [] else [acc.reverse]
  | c :: cs, acc =>
    if isPySpace c then
      if acc.isEmpty then pyWordsAux cs [] else acc.reverse :: pyWordsAux cs []
    else pyWordsAux cs (c :: acc)

/-- Python `s.split()`: maximal runs of non-whitespace characters. -/
def pyWords (s : List Char) : List (List Char) := pyWordsAux s []

/-- Python `s.strip()`. -/
def pyStrip (s : List Char) : List Char :=
  ((s.dropWhile fun c => isPySpace c).reverse.dropWhile fun c => isPySpace c).reverse

/-- `listStarts p s` is true when `p` occurs at the head of `s`. -/
def listStarts : List Char → List Char → Bool
  | [], _ => true
  | _ :: _, [] => false
  | p :: ps, c :: cs => p == c && listStarts ps cs

/-- Python substring containment `p in s`. -/
def listContainsSub (p : List Char) : List Char → Bool
  | [] => listStarts p []
  | c :: cs => listStarts p (c :: cs) || listContainsSub p cs

/-- Python `s.replace(old, new)` for nonempty `old`, fuelled so that the
recursion is structural (the fuel is always at least the string length, so
it never runs out): replace every non-overlapping occurrence, left to
right. -/
def pyReplaceGo (old new : List Char) : Nat → List Char → List Char
  | 0, s => s
  | _ + 1, [] => []
  | fuel + 1, c :: cs =>
    if listStarts old (c :: cs) then
      new ++ pyReplaceGo old new fuel (cs.drop (old.length - 1))
    else c :: pyReplaceGo old new fuel cs

/-- Python `s.replace(old, new)` (identity when `old` is empty, a case the
source never exercises). -/
def pyReplace (s old new : List Char) : List Char :=
  if old.isEmpty then s else pyReplaceGo old new s.length s

/-- Python `s.split(sep)` for nonempty `sep`, fuelled structural
recursion: split at every occurrence, keeping empty pieces. -/
def pySplitGo (sep : List Char) : Nat → List Char → List Char → List (List Char)
  | 0, s, acc => [acc.reverse ++ s]
  | _ + 1, [], acc => [acc.reverse]
  | fuel + 1, c :: cs, acc =>
    if listStarts sep (c :: cs) then
      acc.reverse :: pySplitGo sep fuel (cs.drop (sep.length - 1)) []
    else pySplitGo sep fuel cs (c :: acc)

/-- Python `s.split(sep)` (degenerate empty separator never occurs in the
source; mapped to the singleton split). -/
def pySplitOn (s sep : List Char) : List (List Char) :=
  if sep.isEmpty then [s] else pySplitGo sep s.length s []

/-- `' '.join` / `'\n\n'.join` style joining. -/
def joinSep (sep : List Char) : List (List Char) → List Char
  | [] => []
  | [x] => x
  | x :: y :: rest => x ++ sep ++ joinSep sep (y :: rest)

/-- Python `str.lower()` (ASCII fragment). -/
def toLowerList (s : List Char) : List Char := s.map Char.toLower

/-- Python regex `\w` (ASCII fragment). -/
def isWordChar (c : Char) : Bool := c.isAlphanum || c == '_'

/-- Length of the match of the regex alternative `www.\S+` at the head of
`s` (Python `re` semantics: the dot matches any character except newline,
`\S+` greedily takes the maximal nonempty run of non-whitespace). -/
def wwwMatchLen (s : List Char) : Option Nat :=
  if listStarts ['w', 'w', 'w'] s then
    match s.drop 3 with
    | [] => none
    | d :: rest =>
      if d == '\n' then none
      else
        let run := rest.takeWhile fun c => !isPySpace c
        if run.length == 0 then none else some (4 + run.length)
  else none

/-- Length of the match of `http\S+|www.\S+` at the head of `s`
(first alternative tried first, as Python does). -/
def urlMatchLen (s : List Char) : Option Nat :=
  if listStarts ['h', 't', 't', 'p'] s then
    let run := (s.drop 4).takeWhile fun c => !isPySpace c
    if run.length == 0 then wwwMatchLen s else some (4 + run.length)
  else wwwMatchLen s

/-- `re.sub(r'http\S+|www.\S+', '', s)`: scan left to right, deleting each
leftmost match (every match has length at least 4, so dropping
`n - 1` further characters from the tail is exactly dropping `n`;
fuelled structural recursion, the fuel never runs out). -/
def stripUrlsGo : Nat → List Char → List Char
  | 0, s => s
  | _ + 1, [] => []
  | fuel + 1, c :: cs =>
    match urlMatchLen (c :: cs) with
    | some n => stripUrlsGo fuel (cs.drop (n - 1))
    | none => c :: stripUrlsGo fuel cs

def stripUrls (s : List Char) : List Char := stripUrlsGo s.length s

/-- Length of the match of `#\w+` at the head of `s`. -/
def hashMatchLen : List Char → Option Nat
  | [] => none
  | c :: cs =>
    if c == '#' then
      let run := cs.takeWhile isWordChar
      if run.length == 0 then none else some (1 + run.length)
    else none

/-- `re.sub(r'#\w+', '', s)` (every match has length at least 2; fuelled
structural recursion, the fuel never runs out). -/
def stripHashtagsGo : Nat → List Char → List Char
  | 0, s => s
  | _ + 1, [] => []
  | fuel + 1, c :: cs =>
    match hashMatchLen (c :: cs) with
    | some n => stripHashtagsGo fuel (cs.drop (n - 1))
    | none => c :: stripHashtagsGo fuel cs

def stripHashtags (s : List Char) : List Char := stripHashtagsGo s.length s

/-- The word count used by length validation: words remaining after the URL
and hashtag substitutions. -/
def strippedWordCount (content : List Char) : Nat :=
  (pyWords (stripHashtags (stripUrls content))).length

/-- `SEOLinkedInPoster.validate_content_length`. -/
def validate_content_length (content : List Char) : Bool :=
  decide (150 ≤ strippedWordCount content) &&
    decide (strippedWordCount content ≤ 175)

/-- `n` one-letter words joined by single blanks. -/
def repWords (n : Nat) : List Char := joinSep [' '] (List.replicate n ['w'])

/-- Round to the nearest integer, ties to even (Python `round`). -/
def rne (x : ℚ) : ℤ :=
  let n := ⌊x⌋
  let f := x - n
  if f < 1 / 2 then n
  else if 1 / 2 < f then n + 1
  else if n % 2 = 0 then n else n + 1

/-- Python `round(x, 2)`, idealised over exact rationals (the claims only
exercise arithmetically exact values, where IEEE floats agree). -/
def round2 (x : ℚ) : ℚ := (rne (x * 100) : ℚ) / 100

/-- `self.profile_data["primary_keywords"]`. -/
def primary_keywords : List (List Char) :=
  ["AI Developer".data, "Machine Learning Expert".data,
   "Generative AI Specialist".data, "Chatbot Developer".data,
   "Python Developer".data]

/-- `self.profile_data["profile_url"]`. -/
def profile_url : List Char :=
  "https://www.linkedin.com/in/muhammad-abdullah-ai-ml-developer/".data

/-- The loop body of `SEOLinkedInPoster._calculate_keyword_density` for a
single keyword: the share of whitespace-separated lowercased tokens
containing the lowercased keyword as a substring, as a rounded
percentage (0 when the content has no tokens). -/
def densityFor (keyword content : List Char) : ℚ :=
  round2 (if 0 < (pyWords (toLowerList content)).length then
    (((pyWords (toLowerList content)).filter fun w =>
      listContainsSub (toLowerList keyword) w).length : ℚ) /
      ((pyWords (toLowerList content)).length : ℚ) * 100
  else 0)

/-- `SEOLinkedInPoster._calculate_keyword_density`. -/
def calculate_keyword_density (content : List Char) : List (List Char × ℚ) :=
  primary_keywords.map fun k => (k, densityFor k content)

/-- The four hashtag pools of `get_seo_optimized_hashtags`. -/
def pool_core : List (List Char) :=
  ["AI".data, "MachineLearning".data, "GenerativeAI".data,
   "ArtificialIntelligence".data]

def pool_technical : List (List Char) :=
  ["PythonProgramming".data, "DataScience".data, "ChatbotDevelopment".data,
   "MLOps".data]

def pool_business : List (List Char) :=
  ["DigitalTransformation".data, "TechInnovation".data, "BusinessAI".data,
   "AIStrategy".data]

def pool_trending : List (List Char) :=
  ["FutureOfAI".data, "AITechnology".data, "TechTrends".data,
   "Innovation".data]

/-- `random.sample(pool, k)`: draw `k` distinct elements without
replacement.  The randomness is an oracle `r` of natural numbers; each
draw removes the chosen element from the remaining pool.  (On an empty
pool `random.sample` would raise; the source never asks for more
elements than the pool holds.) -/
def sample : List (List Char) → Nat → (Nat → Nat) → List (List Char)
  | _, 0, _ => []
  | [], _ + 1, _ => []
  | x :: xs, k + 1, r =>
    let i := r 0 % (x :: xs).length
    (x :: xs).getD i [] ::
      sample ((x :: xs).eraseIdx i) k (fun n => r (n + 1))

/-- `SEOLinkedInPoster.get_seo_optimized_hashtags`: 2 from core, 2 from
technical, 1 from business, 1 from trending, each drawn without
replacement; the oracle stream is consumed left to right. -/
def get_seo_optimized_hashtags (r : Nat → Nat) : List (List Char) :=
  sample pool_core 2 (fun n => r n) ++
    sample pool_technical 2 (fun n => r (2 + n)) ++
    sample pool_business 1 (fun n => r (4 + n)) ++
    sample pool_trending 1 (fun n => r (5 + n))

/-- The emoji glyphs given spacing treatment in `format_post_content`. -/
def format_emojis : List Char :=
  ['🚀', '💡', '🤖', '✨', '💪', '🔍', '🎯', '⚡', '🔮', '💻', '🤝']

/-- Per-section cleaning in `format_post_content`: drop bold/italic
markers, strip, replace a leading-hashtag section by a freshly sampled
hashtag line, and add a blank after each emoji. -/
def cleanSection (r : Nat → Nat) (sec : List Char) : List Char :=
  let c1 := pyStrip (pyReplace (pyReplace sec "**".data []) "*".data [])
  let c2 :=
    if listStarts ['#'] c1 then
      joinSep [' '] ((get_seo_optimized_hashtags r).map fun t => '#' :: t)
    else c1
  format_emojis.foldl (fun acc e => pyReplace acc [e] [e, ' ']) c2

/-- The section phase of `SEOLinkedInPoster.format_post_content`: split on
blank lines, drop whitespace-only sections, clean each remaining section
(section `i` drawing hashtags from oracle stream `rs i`), rejoin, and
force an inline profile URL onto its own line. -/
def formatPhase1 (rs : Nat → Nat → Nat) (content : List Char) : List Char :=
  let secs := (pySplitOn content ['\n', '\n']).filter
    fun s => !(pyStrip s).isEmpty
  let cleaned := secs.enum.map fun p => cleanSection (rs p.1) p.2
  let joined := joinSep ['\n', '\n'] cleaned
  if listContainsSub profile_url joined then
    pyReplace joined profile_url ('\n' :: profile_url)
  else joined

/-- `SEOLinkedInPoster.format_post_content`: the section phase followed by
truncation to 170 words plus ellipsis and re-appended profile URL when
the word count exceeds 175, and a final strip. -/
def format_post_content (rs : Nat → Nat → Nat) (content : List Char) :
    List Char :=
  pyStrip
    (if 175 < (pyWords (formatPhase1 rs content)).length then
      (joinSep [' '] ((pyWords (formatPhase1 rs content)).take 170) ++
        ['.', '.', '.']) ++ '\n' :: '\n' :: profile_url
    else formatPhase1 rs content)

/-- One HTTP response as seen by the posting call: only the status code
and the `x-restli-id` response header matter to the source. -/
structure HttpResp where
  status : Nat
  postIdHeader : Option (List Char)
deriving DecidableEq

/-- The `status_forcelist` of the adapter mounted in `_setup_session`. -/
def retry_status_forcelist : List Nat := [429, 500, 502, 503, 504]

/-- urllib3 `Retry.DEFAULT_ALLOWED_METHODS` (`DEFAULT_METHOD_WHITELIST`
in 1.26): only these idempotent methods are status-retried.  POST is
absent, and `_setup_session` does not override `allowed_methods`. -/
def retry_allowed_methods : List (List Char) :=
  ["HEAD".data, "GET".data, "PUT".data, "DELETE".data, "OPTIONS".data,
   "TRACE".data]

/-- urllib3 `Retry._is_method_retryable` under the default policy. -/
def method_retryable (m : List Char) : Bool :=
  decide (m ∈ retry_allowed_methods)

inductive SessionOutcome where
  | resp (r : HttpResp)
  | retryExhausted
deriving DecidableEq

/-- One request through the session mounted in `_setup_session`
(`Retry(total=3, backoff_factor=0.5, status_forcelist=[429, 500, 502,
503, 504])` with the default `allowed_methods`): request `i` receives
`responses i`; urllib3 retries on a forcelist status only when the
method is retryable (`is_retry` requires both), consuming one of the
`left` remaining retries after a backoff sleep of `0.5 * 2 ^ i` time
units, and surfacing exhaustion as a retry error (urllib3
`MaxRetryError`, i.e. `requests.exceptions.RetryError`).  The source's
publish call uses POST, which is not in the default allowed-methods
set, so for it no status ever triggers a retry: the first response is
returned after one request and no sleep.  Returns the outcome, the
number of requests issued and the sleeps performed. -/
def sessionGo (method : List Char) (responses : Nat → HttpResp) :
    Nat → Nat → List ℚ → SessionOutcome × Nat × List ℚ
  | 0, i, sleeps =>
    if method_retryable method = true ∧
        (responses i).status ∈ retry_status_forcelist then
      (.retryExhausted, i + 1, sleeps)
    else (.resp (responses i), i + 1, sleeps)
  | left + 1, i, sleeps =>
    if method_retryable method = true ∧
        (responses i).status ∈ retry_status_forcelist then
      sessionGo method responses left (i + 1)
        (sleeps ++ [(1 / 2 : ℚ) * 2 ^ i])
    else (.resp (responses i), i + 1, sleeps)

/-- Python exception values relevant to `linkedin_api.py`:
`ValueError` and `LinkedInError`, each with its message. -/
inductive PyErr where
  | valueError (msg : List Char)
  | linkedInError (msg : List Char)
deriving DecidableEq

def pyErrName : PyErr → List Char
  | .valueError _ => "ValueError".data
  | .linkedInError _ => "LinkedInError".data

def pyErrMsg : PyErr → List Char
  | .valueError m => m
  | .linkedInError m => m

/-- `PostResponse` of `linkedin_api.py` (`details` holds the completion
timestamp, supplied by the clock oracle). -/
structure PostResp where
  status : List Char
  post_id : List Char
  details : List Char
deriving DecidableEq

def toUpperList (s : List Char) : List Char := s.map Char.toUpper

def visibility_values : List (List Char) := ["PUBLIC".data, "CONNECTIONS".data]

/-- `LinkedInPost.create_text_post`: empty-after-strip text fails fast with
`ValueError`; a string visibility outside the enumeration fails fast with
`ValueError`; otherwise the envelope is POSTed through the mounted
session — and since POST is not status-retried under the default
allowed-methods policy, the first response is decisive: a non-2xx
response makes `raise_for_status` raise a `RequestException` which is
translated to `LinkedInError` (the exhaustion branch is kept for the
general session semantics but is unreachable for POST), and a success
response without the post-id header raises `LinkedInError` directly.
Returns the outcome together with the number of network requests issued
and the backoff sleeps performed. -/
def create_text_post (responses : Nat → HttpResp)
    (now text visibility : List Char) :
    Except PyErr PostResp × Nat × List ℚ :=
  if (pyStrip text).isEmpty then
    (.error (.valueError "Post text cannot be empty".data), 0, [])
  else if (toUpperList visibility) ∉ visibility_values then
    (.error (.valueError "Invalid visibility value".data), 0, [])
  else
    match sessionGo "POST".data responses 3 0 [] with
    | (.retryExhausted, n, sl) =>
      (.error (.linkedInError "Failed to create post: too many retries".data),
       n, sl)
    | (.resp r, n, sl) =>
      if 400 ≤ r.status then
        (.error (.linkedInError "Failed to create post: http error".data),
         n, sl)
      else
        match r.postIdHeader with
        | none =>
          (.error (.linkedInError "No post ID received in response".data),
           n, sl)
        | some pid =>
          if pid.isEmpty then
            (.error (.linkedInError "No post ID received in response".data),
             n, sl)
          else (.ok ⟨"success".data, pid, now⟩, n, sl)

/-- The dictionary returned by the module-level `create_post`. -/
structure CreatePostDict where
  success : Bool
  post_id : Option (List Char)
  status : Option (List Char)
  details : Option (List Char)
  error : Option (List Char)
  error_type : Option (List Char)
deriving DecidableEq

/-- `LinkedInPost.__init__` / `_validate_token`: constructing the client
issues a userinfo request whose outcome is the oracle `tokenCheck`
(`.ok sub` the subject id from the response, `.error msg` the transport
error message); a failure raises `LinkedInError` with a diagnostic
message, a success derives the author identifier. -/
def validate_token (tokenCheck : Except (List Char) (List Char)) :
    Except PyErr (List Char) :=
  match tokenCheck with
  | .error m =>
    .error (.linkedInError ("Token validation failed: ".data ++ m))
  | .ok sub => .ok ("urn:li:person:".data ++ sub)

/-- Module-level `create_post` of `linkedin_api.py`: construct the client
(which validates the token), publish the text, and translate every
exception of the body into a failure dictionary carrying the exception
message and class name. -/
def create_post (tokenCheck : Except (List Char) (List Char))
    (responses : Nat → HttpResp) (now message visibility : List Char) :
    CreatePostDict :=
  match validate_token tokenCheck with
  | .error e =>
    ⟨false, none, none, none, some (pyErrMsg e), some (pyErrName e)⟩
  | .ok _urn =>
    match (create_text_post responses now message visibility).1 with
    | .error e =>
      ⟨false, none, none, none, some (pyErrMsg e), some (pyErrName e)⟩
    | .ok pr =>
      ⟨true, some pr.post_id, some pr.status, some pr.details, none, none⟩

/-- A Python exception raised by the generation step (class name and
message). -/
structure PyExn where
  name : List Char
  msg : List Char
deriving DecidableEq

/-- The emoji set counted by `save_post_record`. -/
def save_emojis : List Char := ['🚀', '💡', '🤖', '✨', '💪', '🔍', '🤝']

def countChar (c : Char) (s : List Char) : Nat :=
  (s.filter fun d => d == c).length

def countEmoji (s : List Char) : Nat :=
  (s.filter fun d => d ∈ save_emojis).length

/-- A record appended to the audit file by `save_post_record`.  A `post`
record is the dictionary built in `create_seo_post` on a valid attempt,
enriched by `save_post_record` with `seo_metrics` (keyword density again,
hashtag count, split length, emoji count); an `err` record is the final
failure entry, which has no top-level content key and hence no metrics. -/
inductive SavedRec where
  | post (date content : List Char) (post_id : Option (List Char))
      (success : Bool) (error : Option (List Char)) (attempt : Nat)
      (word_count : Nat) (kd : List (List Char × ℚ))
      (seo_kd : List (List Char × ℚ)) (hashtag_count : Nat)
      (content_length : Nat) (emoji_count : Nat)
  | err (date errorMsg error_type : List Char) (attempts : Nat)
      (content : Option (List Char))
deriving DecidableEq

/-- The value returned by `create_seo_post`: the dictionary of
`create_post` on the published path, or the locally built error
dictionary on the exhausted-by-exception path. -/
inductive OrchReturn where
  | published (r : CreatePostDict)
  | failed (error error_type : List Char) (attempts : Nat)
      (content : Option (List Char))
deriving DecidableEq

/-- Observable outcome of one `create_seo_post` call: the returned value
(`none` models the Python `None` that a bare fall-through of the `for`
loop produces), the audit records appended, and the number of generation
and publish calls made. -/
structure OrchResult where
  result : Option OrchReturn
  saved : List SavedRec
  genCalls : Nat
  publishCalls : Nat
deriving DecidableEq

/-- The audit-record dictionary built in `create_seo_post` on a valid
attempt, as enriched and appended by `save_post_record`. -/
def mkPostRecord (now fc : List Char) (res : CreatePostDict)
    (attempt : Nat) : SavedRec :=
  SavedRec.post now fc (if res.success then res.post_id else none)
    res.success (if res.success then none else res.error) (attempt + 1)
    (pyWords fc).length (calculate_keyword_density fc)
    (calculate_keyword_density fc) (countChar '#' fc)
    (pyWords fc).length (countEmoji fc)

/-- The loop of `SEOLinkedInPoster.create_seo_post`.  `left` is the number
of iterations the `for` loop still has (structural fuel), `attempt` the
0-based loop counter, `lastFmt` the value of the Python local
`formatted_content` if it has been assigned by an earlier iteration,
`saved`, `g`, `p` the records appended and the generation/publish calls
so far.  `gen` is the per-attempt outcome of `generate_post_content`
(the only step of the try-block that can raise: `create_post` never
raises, formatting and validation are total, and `save_post_record`
swallows its own exceptions); `rs` supplies the hashtag randomness per
attempt and `publish` is the outcome of `create_post` for the attempt. -/
def orchLoop (now : List Char) (rs : Nat → Nat → Nat → Nat)
    (gen : Nat → Except PyExn (List Char))
    (publish : Nat → List Char → CreatePostDict) (max_attempts : Nat) :
    Nat → Nat → Option (List Char) → List SavedRec → Nat → Nat → OrchResult
  | 0, _, _, saved, g, p => ⟨none, saved, g, p⟩
  | left + 1, attempt, lastFmt, saved, g, p =>
    match gen attempt with
    | .error e =>
      if attempt = max_attempts - 1 then
        ⟨some (.failed e.msg e.name (attempt + 1) lastFmt),
         saved ++ [SavedRec.err now e.msg e.name (attempt + 1) lastFmt],
         g + 1, p⟩
      else orchLoop now rs gen publish max_attempts left (attempt + 1)
        lastFmt saved (g + 1) p
    | .ok raw =>
      let fc := format_post_content (rs attempt) raw
      if validate_content_length fc then
        let res := publish attempt fc
        ⟨some (.published res), saved ++ [mkPostRecord now fc res attempt],
         g + 1, p + 1⟩
      else orchLoop now rs gen publish max_attempts left (attempt + 1)
        (some fc) saved (g + 1) p

/-- `SEOLinkedInPoster.create_seo_post`. -/
def create_seo_post (now : List Char) (rs : Nat → Nat → Nat → Nat)
    (gen : Nat → Except PyExn (List Char))
    (publish : Nat → List Char → CreatePostDict)
    (max_attempts : Nat) : OrchResult :=
  orchLoop now rs gen publish max_attempts max_attempts 0 none [] 0 0

/-- The final text line of a string: everything after the last newline. -/
def lastLine (s : List Char) : List Char :=
  (s.reverse.takeWhile fun c => !(c == '\n')).reverse

/-- Append `tail` to the last element of a list of words (used to relate
`' '.join(words) ++ tail` to a join of adjusted words). -/
def appendToLast (tail : List Char) : List (List Char) → List (List Char)
  | [] => []
  | [x] => [x ++ tail]
  | x :: y :: rest => x :: appendToLast tail (y :: rest)

deriving instance DecidableEq for Except

/-! ## Helper lemmas -/

theorem listStarts_subset {p s : List Char} (h : listStarts p s = true) :
    ∀ c ∈ p, c ∈ s := by
  induction p generalizing s with
  | nil => intro c hc; cases hc
  | cons a as ih =>
    cases s with
    | nil => simp [listStarts] at h
    | cons b bs =>
      simp only [listStarts, Bool.and_eq_true, beq_iff_eq] at h
      intro c hc
      rcases List.mem_cons.mp hc with rfl | hc
      · rw [h.1]; exact List.mem_cons_self _ _
      · exact List.mem_cons_of_mem _ (ih h.2 c hc)

theorem listContainsSub_subset {p s : List Char}
    (h : listContainsSub p s = true) : ∀ c ∈ p, c ∈ s := by
  induction s with
  | nil =>
    cases p with
    | nil => intro c hc; cases hc
    | cons a as => simp [listContainsSub, listStarts] at h
  | cons b bs ih =>
    simp only [listContainsSub, Bool.or_eq_true] at h
    rcases h with h | h
    · exact listStarts_subset h
    · intro c hc
      exact List.mem_cons_of_mem _ (ih h c hc)

theorem pyWordsAux_nonspace {s : List Char} :
    ∀ {acc : List Char}, (∀ c ∈ acc, isPySpace c = false) →
    ∀ w ∈ pyWordsAux s acc, ∀ c ∈ w, isPySpace c = false := by
  induction s with
  | nil =>
    intro acc hacc w hw
    simp only [pyWordsAux] at hw
    split at hw
    · cases hw
    · rw [List.mem_singleton] at hw
      subst hw
      intro c hc
      exact hacc c (List.mem_reverse.mp hc)
  | cons a as ih =>
    intro acc hacc w hw
    simp only [pyWordsAux] at hw
    split at hw
    · split at hw
      · exact ih (fun c hc => absurd hc (List.not_mem_nil c)) w hw
      · rcases List.mem_cons.mp hw with rfl | hw
        · intro c hc; exact hacc c (List.mem_reverse.mp hc)
        · exact ih (fun c hc => absurd hc (List.not_mem_nil c)) w hw
    · rename_i ha
      refine ih ?_ w hw
      intro c hc
      rcases List.mem_cons.mp hc with rfl | hc
      · exact Bool.eq_false_iff.mpr ha
      · exact hacc c hc

theorem pyWords_nonspace {s : List Char} :
    ∀ w ∈ pyWords s, ∀ c ∈ w, isPySpace c = false :=
  pyWordsAux_nonspace (fun c hc => absurd hc (List.not_mem_nil c))

theorem pyWordsAux_ne_nil {s : List Char} :
    ∀ {acc : List Char}, ∀ w ∈ pyWordsAux s acc, w ≠ [] := by
  induction s with
  | nil =>
    intro acc w hw
    simp only [pyWordsAux] at hw
    split at hw
    · cases hw
    · rw [List.mem_singleton] at hw
      subst hw
      rename_i hne
      simp only [List.isEmpty_iff] at hne
      simpa using hne
  | cons a as ih =>
    intro acc w hw
    simp only [pyWordsAux] at hw
    split at hw
    · split at hw
      · exact ih w hw
      · rcases List.mem_cons.mp hw with rfl | hw
        · rename_i hne
          simp only [List.isEmpty_iff] at hne
          simpa using hne
        · exact ih w hw
    · exact ih w hw

theorem pyWords_ne_nil {s : List Char} : ∀ w ∈ pyWords s, w ≠ [] :=
  pyWordsAux_ne_nil

theorem densityFor_eq_zero {keyword content : List Char}
    (h : ∀ w ∈ pyWords (toLowerList content),
      listContainsSub (toLowerList keyword) w = false) :
    densityFor keyword content = 0 := by
  unfold densityFor
  have hf : ((pyWords (toLowerList content)).filter fun w =>
      listContainsSub (toLowerList keyword) w) = [] := by
    rw [List.filter_eq_nil_iff]
    intro a ha
    simp [h a ha]
  rw [hf]
  split
  · norm_num [round2, rne]
  · norm_num [round2, rne]

theorem densityFor_eq_hundred {keyword content : List Char}
    (h0 : 0 < (pyWords (toLowerList content)).length)
    (h : ∀ w ∈ pyWords (toLowerList content),
      listContainsSub (toLowerList keyword) w = true) :
    densityFor keyword content = 100 := by
  unfold densityFor
  have hf : ((pyWords (toLowerList content)).filter fun w =>
      listContainsSub (toLowerList keyword) w) =
      pyWords (toLowerList content) := by
    rw [List.filter_eq_self]
    intro a ha
    simp [h a ha]
  rw [hf, if_pos h0]
  have hn : ((pyWords (toLowerList content)).length : ℚ) ≠ 0 := by
    exact_mod_cast Nat.pos_iff_ne_zero.mp h0
  rw [div_self hn, one_mul]
  norm_num [round2, rne]

/-! ## C3 -/

/-- C3: `validate_content_length` returns true iff the number of
whitespace-separated words remaining after stripping URL-like tokens and
hashtag tokens lies in [150, 175]; in particular it is false at 149 words
and false at 176 words. -/
theorem c3_validate_content_length_range :
    (∀ content : List Char,
      validate_content_length content = true ↔
        150 ≤ strippedWordCount content ∧ strippedWordCount content ≤ 175) ∧
    validate_content_length (repWords 149) = false ∧
    validate_content_length (repWords 176) = false := by
  refine ⟨fun content => ?_, by decide, by decide⟩
  unfold validate_content_length
  simp only [Bool.and_eq_true, decide_eq_true_eq]

/-! ## C8 and C9 -/

/-- C8: for every content, keyword density maps each configured primary
keyword to the percentage of lowercased whitespace tokens containing the
lowercased keyword as a substring, over the total token count, rounded to
2 decimals, and 0 when there are no tokens; the per-keyword computation
yields exactly 0 when no token contains the keyword and exactly 100 when
all (at least one) tokens contain it. -/
theorem c8_keyword_density_formula :
    (∀ content : List Char,
      calculate_keyword_density content = primary_keywords.map fun k =>
        (k, round2 (if 0 < (pyWords (toLowerList content)).length then
          ((((pyWords (toLowerList content)).filter fun w =>
            listContainsSub (toLowerList k) w).length : ℚ) /
            ((pyWords (toLowerList content)).length : ℚ)) * 100 else 0))) ∧
    (∀ keyword content : List Char,
      (∀ w ∈ pyWords (toLowerList content),
        listContainsSub (toLowerList keyword) w = false) →
      densityFor keyword content = 0) ∧
    (∀ keyword content : List Char,
      0 < (pyWords (toLowerList content)).length →
      (∀ w ∈ pyWords (toLowerList content),
        listContainsSub (toLowerList keyword) w = true) →
      densityFor keyword content = 100) :=
  ⟨fun _ => rfl, fun _ _ h => densityFor_eq_zero h,
   fun _ _ h0 h => densityFor_eq_hundred h0 h⟩

theorem c8_keyword_density_formula_witness :
    densityFor "ai".data "xx yy".data = 0 ∧
    densityFor "b".data "ab b".data = 100 :=
  ⟨c8_keyword_density_formula.2.1 "ai".data "xx yy".data (by decide),
   c8_keyword_density_formula.2.2 "b".data "ab b".data (by decide)
     (by decide)⟩

/-- C9: every configured primary keyword contains a blank character, and
whitespace-split tokens never do, so `_calculate_keyword_density` maps
every configured keyword to exactly 0 for every content string. -/
theorem c9_configured_density_always_zero :
    (∀ kw ∈ primary_keywords, ' ' ∈ kw) ∧
    ∀ content : List Char,
      calculate_keyword_density content =
        primary_keywords.map fun k => (k, 0) := by
  have hall : ∀ kw ∈ primary_keywords, ' ' ∈ kw := by decide
  refine ⟨hall, fun content => ?_⟩
  unfold calculate_keyword_density
  rw [List.map_inj_left]
  intro kw hkw
  have hzero : densityFor kw content = 0 := by
    refine densityFor_eq_zero ?_
    intro w hw
    cases hcs : listContainsSub (toLowerList kw) w with
    | false => rfl
    | true =>
      exfalso
      have hsp : ' ' ∈ toLowerList kw :=
        List.mem_map.mpr ⟨' ', hall kw hkw, by decide⟩
      have hmem : ' ' ∈ w := listContainsSub_subset hcs ' ' hsp
      have hns : isPySpace ' ' = false := pyWords_nonspace w hw ' ' hmem
      simp [isPySpace] at hns
  rw [hzero]

/-! ## C7 -/

theorem mem_of_mem_eraseIdx {α : Type} {l : List α} {i : Nat} {a : α}
    (h : a ∈ l.eraseIdx i) : a ∈ l := by
  induction l generalizing i with
  | nil => simp [List.eraseIdx] at h
  | cons b bs ih =>
    cases i with
    | zero =>
      simp only [List.eraseIdx_cons_zero] at h
      exact List.mem_cons_of_mem _ h
    | succ n =>
      simp only [List.eraseIdx_cons_succ] at h
      rcases List.mem_cons.mp h with rfl | h
      · exact List.mem_cons_self _ _
      · exact List.mem_cons_of_mem _ (ih h)

theorem length_eraseIdx_of_lt {α : Type} {l : List α} {i : Nat}
    (h : i < l.length) : (l.eraseIdx i).length = l.length - 1 := by
  induction l generalizing i with
  | nil => simp at h
  | cons b bs ih =>
    cases i with
    | zero => simp
    | succ n =>
      have hn : n < bs.length := by simpa using h
      simp only [List.eraseIdx_cons_succ, List.length_cons]
      rw [ih hn]
      omega

theorem nodup_eraseIdx {α : Type} {l : List α} (h : l.Nodup) (i : Nat) :
    (l.eraseIdx i).Nodup := by
  induction l generalizing i with
  | nil => simp [List.eraseIdx]
  | cons b bs ih =>
    rcases List.nodup_cons.mp h with ⟨hb, hbs⟩
    cases i with
    | zero => simpa using hbs
    | succ n =>
      simp only [List.eraseIdx_cons_succ]
      rw [List.nodup_cons]
      exact ⟨fun hmem => hb (mem_of_mem_eraseIdx hmem), ih hbs n⟩

theorem getD_mem_of_lt {α : Type} {l : List α} {i : Nat} (d : α)
    (h : i < l.length) : l.getD i d ∈ l := by
  induction l generalizing i with
  | nil => simp at h
  | cons b bs ih =>
    cases i with
    | zero => simp
    | succ n =>
      simp only [List.getD_cons_succ]
      exact List.mem_cons_of_mem _ (ih (by simpa using h))

theorem getD_not_mem_eraseIdx {α : Type} {l : List α} (hnd : l.Nodup)
    {i : Nat} (d : α) (h : i < l.length) : l.getD i d ∉ l.eraseIdx i := by
  induction l generalizing i with
  | nil => simp at h
  | cons b bs ih =>
    rcases List.nodup_cons.mp hnd with ⟨hb, hbs⟩
    cases i with
    | zero => simpa using hb
    | succ n =>
      have hn : n < bs.length := by simpa using h
      simp only [List.getD_cons_succ, List.eraseIdx_cons_succ, List.mem_cons]
      push_neg
      refine ⟨?_, ih hbs hn⟩
      intro heq
      exact hb (heq ▸ getD_mem_of_lt d hn)

theorem sample_subset {pool : List (List Char)} {k : Nat} {r : Nat → Nat} :
    ∀ t ∈ sample pool k r, t ∈ pool := by
  induction k generalizing pool r with
  | zero => intro t ht; simp [sample] at ht
  | succ n ih =>
    intro t ht
    cases pool with
    | nil => simp [sample] at ht
    | cons a as =>
      simp only [sample] at ht
      rcases List.mem_cons.mp ht with rfl | ht
      · exact getD_mem_of_lt [] (Nat.mod_lt _ (by simp))
      · exact mem_of_mem_eraseIdx (ih _ ht)

theorem sample_length {pool : List (List Char)} {k : Nat} {r : Nat → Nat}
    (h : k ≤ pool.length) : (sample pool k r).length = k := by
  induction k generalizing pool r with
  | zero => simp [sample]
  | succ n ih =>
    cases pool with
    | nil => simp at h
    | cons a as =>
      have hlt : r 0 % (a :: as).length < (a :: as).length :=
        Nat.mod_lt _ (by simp)
      have h' : n ≤ ((a :: as).eraseIdx (r 0 % (a :: as).length)).length := by
        rw [length_eraseIdx_of_lt hlt]
        simp only [List.length_cons] at h ⊢
        omega
      simp only [List.length_cons] at h'
      simp only [sample, List.length_cons]
      rw [ih h']

theorem sample_nodup {pool : List (List Char)} {k : Nat} {r : Nat → Nat}
    (h : pool.Nodup) : (sample pool k r).Nodup := by
  induction k generalizing pool r with
  | zero => simp [sample]
  | succ n ih =>
    cases pool with
    | nil => simp [sample]
    | cons a as =>
      have hlt : r 0 % (a :: as).length < (a :: as).length :=
        Nat.mod_lt _ (by simp)
      simp only [sample]
      rw [List.nodup_cons]
      refine ⟨fun hmem => ?_, ih (nodup_eraseIdx h _)⟩
      exact getD_not_mem_eraseIdx h [] hlt (sample_subset _ hmem)

/-- C7: every invocation of the hashtag sampler returns exactly six
pairwise-distinct tags: two from the core pool, two from the technical
pool, one from the business pool and one from the trending pool. -/
theorem c7_hashtag_sampling (r : Nat → Nat) :
    ∃ a b c d e f : List Char,
      get_seo_optimized_hashtags r = [a, b, c, d, e, f] ∧
      [a, b, c, d, e, f].Nodup ∧
      a ∈ pool_core ∧ b ∈ pool_core ∧ c ∈ pool_technical ∧
      d ∈ pool_technical ∧ e ∈ pool_business ∧ f ∈ pool_trending := by
  have hc : (sample pool_core 2 fun n => r n).length = 2 :=
    sample_length (by decide)
  have ht : (sample pool_technical 2 fun n => r (2 + n)).length = 2 :=
    sample_length (by decide)
  have hb : (sample pool_business 1 fun n => r (4 + n)).length = 1 :=
    sample_length (by decide)
  have htr : (sample pool_trending 1 fun n => r (5 + n)).length = 1 :=
    sample_length (by decide)
  obtain ⟨a, b, hab⟩ := List.length_eq_two.mp hc
  obtain ⟨c, d, hcd⟩ := List.length_eq_two.mp ht
  obtain ⟨e, he⟩ := List.length_eq_one.mp hb
  obtain ⟨f, hf⟩ := List.length_eq_one.mp htr
  have hma : a ∈ pool_core :=
    sample_subset a (by rw [hab]; exact List.mem_cons_self _ _)
  have hmb : b ∈ pool_core :=
    sample_subset b (by rw [hab]; simp)
  have hmc : c ∈ pool_technical :=
    sample_subset c (by rw [hcd]; exact List.mem_cons_self _ _)
  have hmd : d ∈ pool_technical :=
    sample_subset d (by rw [hcd]; simp)
  have hme : e ∈ pool_business :=
    sample_subset e (by rw [he]; simp)
  have hmf : f ∈ pool_trending :=
    sample_subset f (by rw [hf]; simp)
  have hD1 : ∀ x ∈ pool_core, x ∉ pool_technical := by decide
  have hD2 : ∀ x ∈ pool_core, x ∉ pool_business := by decide
  have hD3 : ∀ x ∈ pool_core, x ∉ pool_trending := by decide
  have hD4 : ∀ x ∈ pool_technical, x ∉ pool_business := by decide
  have hD5 : ∀ x ∈ pool_technical, x ∉ pool_trending := by decide
  have hD6 : ∀ x ∈ pool_business, x ∉ pool_trending := by decide
  have nab : a ≠ b := by
    have hnd : (sample pool_core 2 fun n => r n).Nodup :=
      sample_nodup (by decide)
    rw [hab] at hnd
    simpa using (List.nodup_cons.mp hnd).1
  have ncd : c ≠ d := by
    have hnd : (sample pool_technical 2 fun n => r (2 + n)).Nodup :=
      sample_nodup (by decide)
    rw [hcd] at hnd
    simpa using (List.nodup_cons.mp hnd).1
  have nac : a ≠ c := fun hq => hD1 a hma (by rw [hq]; exact hmc)
  have nad : a ≠ d := fun hq => hD1 a hma (by rw [hq]; exact hmd)
  have nae : a ≠ e := fun hq => hD2 a hma (by rw [hq]; exact hme)
  have naf : a ≠ f := fun hq => hD3 a hma (by rw [hq]; exact hmf)
  have nbc : b ≠ c := fun hq => hD1 b hmb (by rw [hq]; exact hmc)
  have nbd : b ≠ d := fun hq => hD1 b hmb (by rw [hq]; exact hmd)
  have nbe : b ≠ e := fun hq => hD2 b hmb (by rw [hq]; exact hme)
  have nbf : b ≠ f := fun hq => hD3 b hmb (by rw [hq]; exact hmf)
  have nce : c ≠ e := fun hq => hD4 c hmc (by rw [hq]; exact hme)
  have ncf : c ≠ f := fun hq => hD5 c hmc (by rw [hq]; exact hmf)
  have nde : d ≠ e := fun hq => hD4 d hmd (by rw [hq]; exact hme)
  have ndf : d ≠ f := fun hq => hD5 d hmd (by rw [hq]; exact hmf)
  have nef : e ≠ f := fun hq => hD6 e hme (by rw [hq]; exact hmf)
  refine ⟨a, b, c, d, e, f, ?_, ?_, hma, hmb, hmc, hmd, hme, hmf⟩
  · unfold get_seo_optimized_hashtags
    rw [hab, hcd, he, hf]
    rfl
  · simp only [List.nodup_cons, List.mem_cons, List.mem_singleton,
      List.not_mem_nil, or_false, not_or, List.nodup_nil, and_true]
    exact ⟨⟨nab, nac, nad, nae, naf⟩, ⟨nbc, nbd, nbe, nbf⟩,
      ⟨ncd, nce, ncf⟩, ⟨nde, ndf⟩, ⟨nef, not_false⟩⟩

/-! ## C5 -/

theorem pyWordsAux_append_space {sp : Char} (hsp : isPySpace sp = true)
    (b : List Char) : ∀ (a acc : List Char),
    pyWordsAux (a ++ sp :: b) acc = pyWordsAux a acc ++ pyWordsAux b [] := by
  intro a
  induction a with
  | nil =>
    intro acc
    simp only [List.nil_append, pyWordsAux, hsp, if_true]
    split
    · rfl
    · rfl
  | cons x xs ih =>
    intro acc
    simp only [List.cons_append, pyWordsAux]
    split
    · split
      · exact ih []
      · exact congrArg (List.cons acc.reverse) (ih [])
    · exact ih (x :: acc)

theorem pyWordsAux_all_nonspace {w : List Char}
    (hw : ∀ c ∈ w, isPySpace c = false) :
    ∀ acc : List Char, acc ≠ [] ∨ w ≠ [] →
    pyWordsAux w acc = [acc.reverse ++ w] := by
  induction w with
  | nil =>
    intro acc hne
    rcases hne with hne | hne
    · simp only [pyWordsAux, List.append_nil]
      rw [if_neg]
      simpa using hne
    · exact absurd rfl hne
  | cons c cs ih =>
    intro acc _
    simp only [pyWordsAux, hw c (List.mem_cons_self _ _), Bool.false_eq_true,
      if_false]
    rw [ih (fun d hd => hw d (List.mem_cons_of_mem _ hd)) (c :: acc)
      (Or.inl (by simp))]
    simp

theorem pyWords_single {w : List Char} (hne : w ≠ [])
    (hw : ∀ c ∈ w, isPySpace c = false) : pyWords w = [w] := by
  unfold pyWords
  rw [pyWordsAux_all_nonspace hw [] (Or.inr hne)]
  rfl

theorem pyWords_joinSep_space {ws : List (List Char)}
    (h1 : ∀ w ∈ ws, w ≠ [])
    (h2 : ∀ w ∈ ws, ∀ c ∈ w, isPySpace c = false) :
    pyWords (joinSep [' '] ws) = ws := by
  induction ws with
  | nil => rfl
  | cons x rest ih =>
    cases rest with
    | nil =>
      show pyWords x = [x]
      exact pyWords_single (h1 x (List.mem_cons_self _ _))
        (h2 x (List.mem_cons_self _ _))
    | cons y t =>
      have hx : joinSep [' '] (x :: y :: t) = x ++ ' ' :: joinSep [' '] (y :: t) := by
        show x ++ [' '] ++ joinSep [' '] (y :: t) = _
        simp
      rw [hx]
      unfold pyWords
      rw [pyWordsAux_append_space (by decide)]
      have hxw : pyWordsAux x [] = [x] :=
        pyWords_single (h1 x (List.mem_cons_self _ _))
          (h2 x (List.mem_cons_self _ _))
      rw [hxw]
      have := ih (fun w hw => h1 w (List.mem_cons_of_mem _ hw))
        (fun w hw => h2 w (List.mem_cons_of_mem _ hw))
      unfold pyWords at this
      rw [this]
      rfl

theorem dropWhile_eq_self_of_head {s : List Char}
    (h : ∀ c, s.head? = some c → isPySpace c = false) :
    s.dropWhile (fun c => isPySpace c) = s := by
  cases s with
  | nil => rfl
  | cons a l =>
    rw [List.dropWhile_cons_of_neg]
    simp [h a rfl]

theorem pyStrip_noop {s : List Char}
    (hh : ∀ c, s.head? = some c → isPySpace c = false)
    (hl : ∀ c, s.getLast? = some c → isPySpace c = false) :
    pyStrip s = s := by
  unfold pyStrip
  rw [dropWhile_eq_self_of_head hh]
  rw [dropWhile_eq_self_of_head (fun c hc => hl c (by
    rw [← List.head?_reverse]
    exact hc))]
  exact List.reverse_reverse s

theorem takeWhile_append_stop (p : Char → Bool) {v : List Char} {w : Char}
    {rest : List Char} (hv : ∀ c ∈ v, p c = true) (hw : p w = false) :
    (v ++ w :: rest).takeWhile p = v := by
  induction v with
  | nil => simp [List.takeWhile_cons, hw]
  | cons x xs ih =>
    simp only [List.cons_append, List.takeWhile_cons,
      hv x (List.mem_cons_self _ _), if_true]
    rw [ih (fun c hc => hv c (List.mem_cons_of_mem _ hc))]

theorem lastLine_append {a u : List Char} (h : ∀ c ∈ u, ¬c = '\n') :
    lastLine (a ++ '\n' :: u) = u := by
  unfold lastLine
  rw [List.reverse_append, List.reverse_cons, List.append_assoc,
    List.singleton_append]
  rw [takeWhile_append_stop (fun c => !(c == '\n'))
    (fun c hc => by simpa using h c (List.mem_reverse.mp hc)) (by simp)]
  exact List.reverse_reverse u

theorem joinSep_appendToLast {sep tail : List Char} :
    ∀ ws : List (List Char), ws ≠ [] →
    joinSep sep ws ++ tail = joinSep sep (appendToLast tail ws) := by
  intro ws
  induction ws with
  | nil => intro h; exact absurd rfl h
  | cons x rest ih =>
    intro _
    cases rest with
    | nil => rfl
    | cons y t =>
      show (x ++ sep ++ joinSep sep (y :: t)) ++ tail =
        joinSep sep (x :: appendToLast tail (y :: t))
      have htail : joinSep sep (x :: appendToLast tail (y :: t)) =
          x ++ sep ++ joinSep sep (appendToLast tail (y :: t)) := by
        cases t with
        | nil => rfl
        | cons z zs => rfl
      rw [htail, ← ih (by simp)]
      simp [List.append_assoc]

theorem length_appendToLast (tail : List Char) :
    ∀ ws : List (List Char), (appendToLast tail ws).length = ws.length := by
  intro ws
  induction ws with
  | nil => rfl
  | cons x rest ih =>
    cases rest with
    | nil => rfl
    | cons y t =>
      show (x :: appendToLast tail (y :: t)).length = _
      simp only [List.length_cons]
      rw [ih]
      rfl

theorem mem_appendToLast {tail : List Char} :
    ∀ {ws : List (List Char)}, ∀ w ∈ appendToLast tail ws,
    w ∈ ws ∨ ∃ x ∈ ws, w = x ++ tail := by
  intro ws
  induction ws with
  | nil => intro w hw; cases hw
  | cons x rest ih =>
    cases rest with
    | nil =>
      intro w hw
      simp only [appendToLast, List.mem_singleton] at hw
      exact Or.inr ⟨x, List.mem_cons_self _ _, hw⟩
    | cons y t =>
      intro w hw
      simp only [appendToLast] at hw
      rcases List.mem_cons.mp hw with rfl | hw
      · exact Or.inl (List.mem_cons_self _ _)
      · rcases ih w hw with h | ⟨z, hz, hzz⟩
        · exact Or.inl (List.mem_cons_of_mem _ h)
        · exact Or.inr ⟨z, List.mem_cons_of_mem _ hz, hzz⟩

theorem head?_append_left {l m : List Char} {c : Char}
    (h : l.head? = some c) : (l ++ m).head? = some c := by
  cases l with
  | nil => simp at h
  | cons a l2 => simpa using h

theorem head?_joinSep_cons {sep x : List Char} {r : List (List Char)}
    (hx : x ≠ []) : (joinSep sep (x :: r)).head? = x.head? := by
  cases r with
  | nil => rfl
  | cons y t =>
    obtain ⟨c, xs, rfl⟩ := List.exists_cons_of_ne_nil hx
    rfl

theorem getLast?_append_right {l m : List Char} {c : Char}
    (h : m.getLast? = some c) : (l ++ m).getLast? = some c := by
  rw [← List.head?_reverse] at h
  rw [← List.head?_reverse, List.reverse_append]
  exact head?_append_left h

/-- C5: whenever the section phase of `format_post_content` yields more
than 175 words, the result is exactly the first 170 words joined by
blanks with an ellipsis appended, followed by a blank line and the
profile URL; consequently it has at most 171 whitespace-separated words
and its final line is the profile URL. -/
theorem c5_truncation_shape (rs : Nat → Nat → Nat) (content : List Char)
    (h : 175 < (pyWords (formatPhase1 rs content)).length) :
    format_post_content rs content =
      (joinSep [' '] ((pyWords (formatPhase1 rs content)).take 170) ++
        ['.', '.', '.']) ++ '\n' :: '\n' :: profile_url ∧
    (pyWords (format_post_content rs content)).length ≤ 171 ∧
    lastLine (format_post_content rs content) = profile_url := by
  have hTsub : ∀ w ∈ (pyWords (formatPhase1 rs content)).take 170,
      w ∈ pyWords (formatPhase1 rs content) :=
    fun w hw => List.take_subset _ _ hw
  have htake_len : ((pyWords (formatPhase1 rs content)).take 170).length =
      170 := by
    rw [List.length_take]
    omega
  have htake_ne : (pyWords (formatPhase1 rs content)).take 170 ≠ [] := by
    intro hq
    rw [hq] at htake_len
    simp at htake_len
  have hT1 : ∀ w ∈ appendToLast ['.', '.', '.']
      ((pyWords (formatPhase1 rs content)).take 170), w ≠ [] := by
    intro w hw
    rcases mem_appendToLast w hw with hmem | ⟨x, hx, rfl⟩
    · exact pyWords_ne_nil w (hTsub w hmem)
    · simp
  have hT2 : ∀ w ∈ appendToLast ['.', '.', '.']
      ((pyWords (formatPhase1 rs content)).take 170),
      ∀ c ∈ w, isPySpace c = false := by
    intro w hw
    rcases mem_appendToLast w hw with hmem | ⟨x, hx, rfl⟩
    · exact pyWords_nonspace w (hTsub w hmem)
    · intro c hc
      rcases List.mem_append.mp hc with hc | hc
      · exact pyWords_nonspace x (hTsub x hx) c hc
      · simp only [List.mem_cons, List.not_mem_nil, or_false] at hc
        rcases hc with rfl | rfl | rfl <;> decide
  have hjoin : joinSep [' ']
        ((pyWords (formatPhase1 rs content)).take 170) ++ ['.', '.', '.'] =
      joinSep [' '] (appendToLast ['.', '.', '.']
        ((pyWords (formatPhase1 rs content)).take 170)) :=
    joinSep_appendToLast _ htake_ne
  have hT_ne : appendToLast ['.', '.', '.']
      ((pyWords (formatPhase1 rs content)).take 170) ≠ [] := by
    intro hq
    have hlenT := length_appendToLast ['.', '.', '.']
      ((pyWords (formatPhase1 rs content)).take 170)
    rw [hq, htake_len] at hlenT
    simp at hlenT
  obtain ⟨t0, trest, hT⟩ := List.exists_cons_of_ne_nil hT_ne
  have ht0mem : t0 ∈ appendToLast ['.', '.', '.']
      ((pyWords (formatPhase1 rs content)).take 170) := by
    rw [hT]
    exact List.mem_cons_self _ _
  have ht0_ne : t0 ≠ [] := hT1 t0 ht0mem
  obtain ⟨c0, t0r, ht0⟩ := List.exists_cons_of_ne_nil ht0_ne
  have hc0 : isPySpace c0 = false := by
    refine hT2 t0 ht0mem c0 ?_
    rw [ht0]
    exact List.mem_cons_self _ _
  have hheadJ : (joinSep [' '] (appendToLast ['.', '.', '.']
      ((pyWords (formatPhase1 rs content)).take 170))).head? = some c0 := by
    rw [hT, head?_joinSep_cons ht0_ne, ht0]
    rfl
  have hout_head : ((joinSep [' ']
        ((pyWords (formatPhase1 rs content)).take 170) ++ ['.', '.', '.']) ++
        '\n' :: '\n' :: profile_url).head? = some c0 := by
    rw [hjoin]
    exact head?_append_left hheadJ
  have hout_last : ((joinSep [' ']
        ((pyWords (formatPhase1 rs content)).take 170) ++ ['.', '.', '.']) ++
        '\n' :: '\n' :: profile_url).getLast? = some '/' :=
    getLast?_append_right (by decide)
  have hfmt : format_post_content rs content =
      (joinSep [' '] ((pyWords (formatPhase1 rs content)).take 170) ++
        ['.', '.', '.']) ++ '\n' :: '\n' :: profile_url := by
    unfold format_post_content
    rw [if_pos h]
    refine pyStrip_noop ?_ ?_
    · intro c hc
      rw [hout_head] at hc
      injection hc with hc
      rw [← hc]
      exact hc0
    · intro c hc
      rw [hout_last] at hc
      injection hc with hc
      rw [← hc]
      decide
  have hwords : pyWords ((joinSep [' ']
        ((pyWords (formatPhase1 rs content)).take 170) ++ ['.', '.', '.']) ++
        '\n' :: '\n' :: profile_url) =
      appendToLast ['.', '.', '.']
        ((pyWords (formatPhase1 rs content)).take 170) ++ [profile_url] := by
    rw [hjoin]
    have h1 : pyWordsAux (joinSep [' '] (appendToLast ['.', '.', '.']
        ((pyWords (formatPhase1 rs content)).take 170))) [] =
        appendToLast ['.', '.', '.']
          ((pyWords (formatPhase1 rs content)).take 170) :=
      pyWords_joinSep_space hT1 hT2
    have h2 : pyWordsAux ('\n' :: profile_url) [] = [profile_url] := by
      have hstep : pyWordsAux ('\n' :: profile_url) [] =
          pyWordsAux profile_url [] := rfl
      rw [hstep]
      exact pyWords_single (by decide) (by decide)
    have hsplit : pyWords (joinSep [' '] (appendToLast ['.', '.', '.']
        ((pyWords (formatPhase1 rs content)).take 170)) ++
        '\n' :: '\n' :: profile_url) =
        pyWordsAux (joinSep [' '] (appendToLast ['.', '.', '.']
          ((pyWords (formatPhase1 rs content)).take 170))) [] ++
        pyWordsAux ('\n' :: profile_url) [] :=
      pyWordsAux_append_space (by decide) _ _ []
    rw [hsplit, h1, h2]
  refine ⟨hfmt, ?_, ?_⟩
  · rw [hfmt, hwords, List.length_append, length_appendToLast, htake_len]
    simp
  · rw [hfmt]
    have hshape : (joinSep [' ']
          ((pyWords (formatPhase1 rs content)).take 170) ++
          ['.', '.', '.']) ++ '\n' :: '\n' :: profile_url =
        ((joinSep [' ']
          ((pyWords (formatPhase1 rs content)).take 170) ++
          ['.', '.', '.']) ++ ['\n']) ++ '\n' :: profile_url := by
      simp
    rw [hshape, lastLine_append (by decide)]

theorem c5_truncation_shape_witness :
    175 < (pyWords (formatPhase1 (fun _ _ => 0) (repWords 200))).length ∧
    (format_post_content (fun _ _ => 0) (repWords 200) =
      (joinSep [' ']
        ((pyWords (formatPhase1 (fun _ _ => 0) (repWords 200))).take 170) ++
        ['.', '.', '.']) ++ '\n' :: '\n' :: profile_url ∧
    (pyWords (format_post_content (fun _ _ => 0)
      (repWords 200))).length ≤ 171 ∧
    lastLine (format_post_content (fun _ _ => 0) (repWords 200)) =
      profile_url) :=
  ⟨by decide, c5_truncation_shape (fun _ _ => 0) (repWords 200) (by decide)⟩

/-! ## C6 -/

/-- C6: a text argument that is empty after trimming makes
`create_text_post` fail with `ValueError` (the spec's `ValidationError`)
before any network request is issued. -/
theorem c6_empty_text_fails_fast (responses : Nat → HttpResp)
    (now text visibility : List Char) (h : pyStrip text = []) :
    create_text_post responses now text visibility =
      (.error (.valueError "Post text cannot be empty".data), 0, []) := by
  unfold create_text_post
  rw [h]
  rfl

theorem c6_empty_text_fails_fast_witness :
    pyStrip "  ".data = [] ∧
    create_text_post (fun _ => ⟨503, none⟩) "ts".data "  ".data
      "PUBLIC".data =
      (.error (.valueError "Post text cannot be empty".data), 0, []) :=
  ⟨by decide, c6_empty_text_fails_fast _ _ _ _ (by decide)⟩

/-! ## C2 -/

theorem sessionGo_method_not_retryable (m : List Char)
    (f : Nat → HttpResp) (l i : Nat) (s : List ℚ)
    (hm : method_retryable m = false) :
    sessionGo m f l i s = (.resp (f i), i + 1, s) := by
  cases l with
  | zero => simp [sessionGo, hm]
  | succ k => simp [sessionGo, hm]

/-- C2 (counterexample): POST is absent from urllib3's default
allowed-methods set, so the mounted retry policy never applies to
`create_text_post`: with a first response of 503 and a success response
available right after it, the call fails immediately with
`LinkedInError` after exactly one network request and no backoff sleep —
refuting the claimed retry-with-backoff on 503 and the claimed success
within the retry budget. -/
theorem c2_retry_counterexample :
    create_text_post
      (fun i => if i = 0 then ⟨503, none⟩ else ⟨201, some "id1".data⟩)
      "ts".data "hello".data "PUBLIC".data =
      (.error (.linkedInError "Failed to create post: http error".data),
        1, []) := by decide

/-- C2 (amended): the retry configuration mounted in `_setup_session`
never applies to the POST issued by `create_text_post`, because POST is
absent from urllib3's default allowed-methods set: every publish call
issues exactly one network request and performs no backoff sleep; a
response whose status is on the forcelist (429/500/502/503/504) is
returned unretried and fails immediately with `LinkedInError` (the
spec's `PublishError`), while a success response carrying a post id
succeeds on that single request. -/
theorem c2_retry_amended
    (succResp failResp : Nat → HttpResp)
    (now text visibility pid : List Char)
    (htext : (pyStrip text).isEmpty = false)
    (hvis : toUpperList visibility ∈ visibility_values)
    (hs : (succResp 0).status < 400)
    (hsc : (succResp 0).postIdHeader = some pid)
    (hsd : pid.isEmpty = false)
    (hf : (failResp 0).status ∈ retry_status_forcelist) :
    create_text_post succResp now text visibility =
      (.ok ⟨"success".data, pid, now⟩, 1, []) ∧
    create_text_post failResp now text visibility =
      (.error (.linkedInError "Failed to create post: http error".data),
        1, []) := by
  have hS := sessionGo_method_not_retryable "POST".data succResp 3 0 []
    (by decide)
  have hF := sessionGo_method_not_retryable "POST".data failResp 3 0 []
    (by decide)
  constructor
  · unfold create_text_post
    rw [if_neg (by simp [htext]), if_neg (not_not_intro hvis)]
    simp only [hS]
    rw [if_neg (by omega)]
    simp only [hsc]
    rw [if_neg (by simp [hsd])]
  · unfold create_text_post
    rw [if_neg (by simp [htext]), if_neg (not_not_intro hvis)]
    simp only [hF]
    have h400 : 400 ≤ (failResp 0).status := by
      have hall : ∀ s ∈ retry_status_forcelist, 400 ≤ s := by decide
      exact hall _ hf
    rw [if_pos h400]

theorem c2_retry_amended_witness :
    create_text_post (fun _ => ⟨201, some "p1".data⟩) "t0".data "hi".data
      "public".data =
      (.ok ⟨"success".data, "p1".data, "t0".data⟩, 1, []) ∧
    create_text_post (fun _ => ⟨503, none⟩) "t0".data "hi".data
      "public".data =
      (.error (.linkedInError "Failed to create post: http error".data),
        1, []) :=
  c2_retry_amended (fun _ => ⟨201, some "p1".data⟩) (fun _ => ⟨503, none⟩)
    "t0".data "hi".data "public".data "p1".data
    (by decide) (by decide) (by decide) (by decide) (by decide) (by decide)

/-! ## C10 -/

/-- C10: the module-level `create_post` never raises: for every
token-validation outcome and network behaviour it returns a dictionary
that is either success = true with the post identifier, status and
details of the `PostResponse`, or success = false with the raised
exception's message under `error` and its class name under
`error_type`. -/
theorem c10_create_post_never_raises
    (tokenCheck : Except (List Char) (List Char))
    (responses : Nat → HttpResp) (now message visibility : List Char) :
    (∃ pr : PostResp,
      create_post tokenCheck responses now message visibility =
        ⟨true, some pr.post_id, some pr.status, some pr.details,
          none, none⟩) ∨
    (∃ e : PyErr,
      create_post tokenCheck responses now message visibility =
        ⟨false, none, none, none, some (pyErrMsg e),
          some (pyErrName e)⟩) := by
  unfold create_post
  cases hv : validate_token tokenCheck with
  | error e => exact Or.inr ⟨e, rfl⟩
  | ok urn =>
    cases hc : (create_text_post responses now message visibility).1 with
    | error e => exact Or.inr ⟨e, rfl⟩
    | ok pr => exact Or.inl ⟨pr, rfl⟩

/-! ## C1 -/

/-- C1 (code bug): with `max_attempts = 3` and every attempt generating
length-invalid content with no exception raised, `create_seo_post` makes
exactly 3 generation attempts and publishes nothing, but persists no
record at all and returns Python `None` — the `for` loop falls through
its `continue` path — instead of persisting one error record with
`attempts == 3` and returning a failure result; so neither the specific
property nor the general one-record-one-result guarantee holds on this
input. -/
theorem c1_silent_exhaustion_bug :
    create_seo_post "2026-10-12T10:00:00".data (fun _ _ _ => 0)
      (fun _ => Except.ok (repWords 10))
      (fun _ _ => ⟨true, some "urn:li:share:1".data, some "success".data,
        some "ts".data, none, none⟩) 3 =
      ⟨none, [], 3, 0⟩ := by decide

/-! ## C4 -/

theorem orchLoop_first_valid (now : List Char) (rs : Nat → Nat → Nat → Nat)
    (gen : Nat → Except PyExn (List Char))
    (publish : Nat → List Char → CreatePostDict) (max_attempts : Nat) :
    ∀ (j attempt : Nat) (lastFmt : Option (List Char))
      (saved : List SavedRec) (g p left : Nat) (ck : List Char),
    (∀ i, i < j → ∃ c, gen (attempt + i) = .ok c ∧
      validate_content_length
        (format_post_content (rs (attempt + i)) c) = false) →
    gen (attempt + j) = .ok ck →
    validate_content_length
      (format_post_content (rs (attempt + j)) ck) = true →
    j < left →
    orchLoop now rs gen publish max_attempts left attempt lastFmt saved g p =
      ⟨some (.published (publish (attempt + j)
          (format_post_content (rs (attempt + j)) ck))),
        saved ++ [mkPostRecord now
          (format_post_content (rs (attempt + j)) ck)
          (publish (attempt + j)
            (format_post_content (rs (attempt + j)) ck)) (attempt + j)],
        g + j + 1, p + 1⟩ := by
  intro j
  induction j with
  | zero =>
    intro attempt lastFmt saved g p left ck hinv hgen hval hlt
    cases left with
    | zero => omega
    | succ l =>
      rw [Nat.add_zero] at hgen hval
      simp only [orchLoop]
      rw [hgen]
      simp only [hval, if_true]
      simp only [Nat.add_zero]
  | succ n ih =>
    intro attempt lastFmt saved g p left ck hinv hgen hval hlt
    cases left with
    | zero => omega
    | succ l =>
      obtain ⟨c0, hc0, hc0v⟩ := hinv 0 (Nat.succ_pos n)
      rw [Nat.add_zero] at hc0 hc0v
      have hidx : attempt + (n + 1) = attempt + 1 + n := by omega
      have hcnt : g + (n + 1) + 1 = g + 1 + n + 1 := by omega
      rw [hidx] at hgen hval ⊢
      rw [hcnt]
      simp only [orchLoop]
      rw [hc0]
      simp only [hc0v, Bool.false_eq_true, if_false]
      refine ih (attempt + 1) (some (format_post_content (rs attempt) c0))
        saved (g + 1) p l ck ?_ hgen hval (by omega)
      intro i hi
      have e : attempt + 1 + i = attempt + (i + 1) := by omega
      rw [e]
      exact hinv (i + 1) (by omega)

/-- C4: if the first `k - 1` attempts generate length-invalid content
without exception and attempt `k` generates valid content,
`create_seo_post` makes exactly `k` generation calls and exactly one
publish call, persists exactly one post record carrying the date, the
formatted content, the post identifier, the success flag and the attempt
number `k` regardless of the publish outcome, and immediately returns the
publish result; a publish failure is never retried at the orchestrator
level. -/
theorem c4_first_valid_publishes_once (now : List Char)
    (rs : Nat → Nat → Nat → Nat) (gen : Nat → Except PyExn (List Char))
    (publish : Nat → List Char → CreatePostDict) (max_attempts k : Nat)
    (ck : List Char) (hk : 0 < k) (hmax : k ≤ max_attempts)
    (hinv : ∀ i, i + 1 < k → ∃ c, gen i = .ok c ∧
      validate_content_length (format_post_content (rs i) c) = false)
    (hgen : gen (k - 1) = .ok ck)
    (hval : validate_content_length
      (format_post_content (rs (k - 1)) ck) = true) :
    create_seo_post now rs gen publish max_attempts =
      ⟨some (.published (publish (k - 1)
          (format_post_content (rs (k - 1)) ck))),
        [mkPostRecord now (format_post_content (rs (k - 1)) ck)
          (publish (k - 1) (format_post_content (rs (k - 1)) ck))
          (k - 1)],
        k, 1⟩ := by
  unfold create_seo_post
  have hzero : (0 : Nat) + (k - 1) = k - 1 := by omega
  have hloop := orchLoop_first_valid now rs gen publish max_attempts
    (k - 1) 0 none [] 0 0 max_attempts ck ?_ ?_ ?_ (by omega)
  · rw [hloop]
    simp only [Nat.zero_add, List.nil_append]
    rw [show k - 1 + 1 = k from by omega]
  · intro i hi
    rw [Nat.zero_add]
    exact hinv i (by omega)
  · rw [hzero]
    exact hgen
  · rw [hzero]
    exact hval

theorem c4_first_valid_publishes_once_witness :
    create_seo_post "d".data (fun _ _ _ => 0)
      (fun i => if i = 0 then Except.ok (repWords 10)
        else Except.ok (repWords 160))
      (fun _ _ => ⟨false, none, none, none, some "boom".data,
        some "LinkedInError".data⟩) 3 =
      ⟨some (.published ⟨false, none, none, none, some "boom".data,
          some "LinkedInError".data⟩),
        [mkPostRecord "d".data
          (format_post_content (fun _ _ => 0) (repWords 160))
          ⟨false, none, none, none, some "boom".data,
            some "LinkedInError".data⟩ 1],
        2, 1⟩ := by
  have h := c4_first_valid_publishes_once "d".data (fun _ _ _ => 0)
    (fun i => if i = 0 then Except.ok (repWords 10)
      else Except.ok (repWords 160))
    (fun _ _ => ⟨false, none, none, none, some "boom".data,
      some "LinkedInError".data⟩)
    3 2 (repWords 160) (by omega) (by omega)
    (fun i hi => by
      have e : i = 0 := by omega
      subst e
      exact ⟨repWords 10, rfl, by decide⟩)
    rfl (by decide)
  exact h
